import Mathlib

/-!
Verification of the AI-Resume-Builder core (step-gating workflow engine and
resume draft engine) against its natural-language specification.

The definitions below are a shallow embedding of the TypeScript source
(`src/unnamed/part_000`, the richer snapshot whose scorer weight table sums
to 100, matching the spec; the workflow machinery is identical in both
snapshots).  JavaScript strings are modelled as Lean `String`, JavaScript
`trim`, `split` and `Array.join` by the executable functions `jsTrim`,
`jsSplitChar` and `strJoin`, and persisted JSON blobs by the inductive
type `Json`.  Freshly generated ids (`crypto.randomUUID()`) are modelled
by an id supply `g : Nat → String` together with an explicit counter.
-/

/-! ## JavaScript string primitives -/

/-- Drop leading whitespace characters (the left half of `String.trim`). -/
def dropWs (l : List Char) : List Char := l.dropWhile (fun c => c.isWhitespace)

/-- Drop trailing whitespace characters. -/
def rtrimChars (l : List Char) : List Char := (dropWs l.reverse).reverse

/-- Remove whitespace from both ends of a character list. -/
def trimChars (l : List Char) : List Char := dropWs (rtrimChars l)

/-- Model of JavaScript `String.prototype.trim`. -/
def jsTrim (s : String) : String := String.mk (trimChars s.data)

/-- Model of JavaScript `String.prototype.toLowerCase` (ASCII case fold,
which covers every character the source compares). -/
def jsToLower (s : String) : String := String.mk (s.data.map Char.toLower)

/-- Model of JavaScript `Array.prototype.join(sep)`. -/
def strJoin (sep : String) : List String → String
  | [] => ""
  | [x] => x
  | x :: y :: rest => x ++ sep ++ strJoin sep (y :: rest)

/-- Helper for `jsSplitChar`: accumulate the current segment (reversed). -/
def splitCharAux (sep : Char) : List Char → List Char → List String
  | [], acc => [String.mk acc.reverse]
  | c :: rest, acc =>
    if c = sep then String.mk acc.reverse :: splitCharAux sep rest []
    else splitCharAux sep rest (c :: acc)

/-- Model of JavaScript `String.prototype.split(sep)` for a one-character
separator (the source only splits on a comma and on a newline). -/
def jsSplitChar (sep : Char) (s : String) : List String := splitCharAux sep s.data []

/-! ## Data model (from the source type declarations) -/

structure StepArtifact where
  notes : String
  status : String
  screenshotName : String
  uploadedAt : String
  deriving Repr, DecidableEq

structure ProofLinks where
  lovable : String
  github : String
  deploy : String
  deriving Repr, DecidableEq

structure BuildStep where
  number : Nat
  route : String
  title : String
  subtitle : String
  prompt : String
  deriving Repr, DecidableEq

structure EducationEntry where
  id : String
  school : String
  degree : String
  year : String
  deriving Repr, DecidableEq

structure ExperienceEntry where
  id : String
  company : String
  role : String
  duration : String
  bullet : String
  deriving Repr, DecidableEq

structure ProjectEntry where
  id : String
  title : String
  description : String
  techStack : List String
  liveUrl : String
  githubUrl : String
  deriving Repr, DecidableEq

structure ResumeDraft where
  name : String
  email : String
  phone : String
  location : String
  summary : String
  education : List EducationEntry
  experience : List ExperienceEntry
  projects : List ProjectEntry
  technicalSkills : List String
  softSkills : List String
  toolsTechnologies : List String
  github : String
  linkedin : String
  deriving Repr, DecidableEq

structure AtsResult where
  score : Int
  suggestions : List String
  deriving Repr, DecidableEq

/-! ## The stage table (the `STEPS` constant) -/

def STEPS : List BuildStep :=
  [ { number := 1, route := "/rb/01-problem", title := "Problem",
      subtitle := "Define the candidate pain points and product intent.",
      prompt := "Document the resume building problems this SaaS solves and list non-goals for MVP." },
    { number := 2, route := "/rb/02-market", title := "Market",
      subtitle := "Frame ICP, alternatives, and value proposition.",
      prompt := "Map target users, alternatives, and why this product wins now." },
    { number := 3, route := "/rb/03-architecture", title := "Architecture",
      subtitle := "Choose major systems and platform boundaries.",
      prompt := "Propose architecture blocks, data flow, and external integrations." },
    { number := 4, route := "/rb/04-hld", title := "High-Level Design",
      subtitle := "Lay out component-level responsibilities.",
      prompt := "Create HLD with modules, ownership, and request/response boundaries." },
    { number := 5, route := "/rb/05-lld", title := "Low-Level Design",
      subtitle := "Define implementation details and contracts.",
      prompt := "Break the design into APIs, schemas, validations, and failure handling." },
    { number := 6, route := "/rb/06-build", title := "Build",
      subtitle := "Implement features according to approved design docs.",
      prompt := "Implement iteratively and capture artifact evidence for each milestone." },
    { number := 7, route := "/rb/07-test", title := "Test",
      subtitle := "Validate quality, reliability, and edge behavior.",
      prompt := "Run verification and break tests, then capture pass/fail evidence." },
    { number := 8, route := "/rb/08-ship", title := "Ship",
      subtitle := "Prepare launch package and release handoff.",
      prompt := "Finalize release checklist and deployment notes for submission." } ]

/-! ## Workflow state machine -/

/-- A stage counts as complete exactly when its stored artifact exists and
its `uploadedAt` stamp is truthy (a non-empty string); this is the JS test
`!artifacts[step.number]?.uploadedAt` negated. -/
def stepComplete (a : Option StepArtifact) : Bool :=
  match a with
  | some art => art.uploadedAt != ""
  | none => false

/-- `getFirstIncompleteStep`: the lowest-numbered stage whose artifact is
missing or unstamped, or `none` when every stage is complete. -/
def getFirstIncompleteStep (arts : Nat → Option StepArtifact) : Option Nat :=
  (STEPS.find? (fun step => !(stepComplete (arts step.number)))).map (fun s => s.number)

/-- `lockedStepThreshold` from `StepPage`: steps above it are locked. -/
def lockedStepThreshold (arts : Nat → Option StepArtifact) : Nat :=
  match getFirstIncompleteStep arts with
  | none => STEPS.length
  | some f => f

/-- The route rail unlock test: `item.number <= lockedStepThreshold`. -/
def stepUnlocked (arts : Nat → Option StepArtifact) (n : Nat) : Bool :=
  decide (n ≤ lockedStepThreshold arts)

/-- The `StepPage` redirect effect: when the requested step lies beyond the
first incomplete step `f`, navigation replaces it with `STEPS[f - 1]`. -/
def resolveStep (arts : Nat → Option StepArtifact) (step : BuildStep) : BuildStep :=
  match getFirstIncompleteStep arts with
  | some f => if f < step.number then STEPS.getD (f - 1) step else step
  | none => step

/-- `handleCopySubmission`: the final-submission clipboard payload. -/
def submissionSummary (arts : Nat → Option StepArtifact) (links : ProofLinks) : String :=
  strJoin "\n"
    (["AI Resume Builder - Build Track Final Submission"] ++
      STEPS.map (fun step =>
        "Step " ++ toString step.number ++ " (" ++ step.title ++ "): " ++
          (if stepComplete (arts step.number) then "Complete" else "Pending")) ++
      ["Lovable: " ++ (if links.lovable = "" then "N/A" else links.lovable),
       "GitHub: " ++ (if links.github = "" then "N/A" else links.github),
       "Deploy: " ++ (if links.deploy = "" then "N/A" else links.deploy)])

/-! ## Persisted JSON values -/

/-- The value space `JSON.parse` can produce.  A failed parse or an absent
key is modelled by an `Option Json` being `none` (the `parseJson` of the source
returns `null` in that case, and `null` itself is also `Json.null`). -/
inductive Json where
  | null : Json
  | bool (b : Bool) : Json
  | num (n : Int) : Json
  | str (s : String) : Json
  | arr (items : List Json) : Json
  | obj (fields : List (String × Json)) : Json
  deriving Repr

/-- JavaScript property access `value.key` (first matching key; `undefined`,
i.e. `none`, on arrays and scalars). -/
def Json.getField : Json → String → Option Json
  | .obj fields, key => (fields.find? (fun f => f.1 == key)).map (fun f => f.2)
  | _, _ => none

/-- `toSafeString` from the source: a value is kept only when it is a
string, else it is coerced to `""`. -/
def toSafeString : Option Json → String
  | some (.str s) => s
  | _ => ""

/-- The same coercion applied to a bare value (used for `techStack` items). -/
def toSafeStringV : Json → String
  | .str s => s
  | _ => ""

/-- The item filter `Boolean(item)` and a `typeof` object check: truthy and
of object type, which keeps exactly objects and arrays. -/
def isObjLike : Json → Bool
  | .obj _ => true
  | .arr _ => true
  | _ => false

/-- `createEducationEntry` given the freshly generated id. -/
def createEducationEntry (idv : String) : EducationEntry :=
  { id := idv, school := "", degree := "", year := "" }

/-- `createExperienceEntry` given the freshly generated id. -/
def createExperienceEntry (idv : String) : ExperienceEntry :=
  { id := idv, company := "", role := "", duration := "", bullet := "" }

/-- `createProjectEntry` given the freshly generated id. -/
def createProjectEntry (idv : String) : ProjectEntry :=
  { id := idv, title := "", description := "", techStack := [], liveUrl := "", githubUrl := "" }

/-- Normalize one persisted education list: non-object items are filtered
out, surviving items are mapped field-by-field, and an item without a
string id consumes one fresh id from the supply `g` (counter `k`). -/
def normEduItems (g : Nat → String) : List Json → Nat → List EducationEntry × Nat
  | [], k => ([], k)
  | item :: rest, k =>
    if isObjLike item then
      let rawId := toSafeString (item.getField "id")
      let idv := if rawId = "" then g k else rawId
      let k1 := if rawId = "" then k + 1 else k
      let e : EducationEntry :=
        { id := idv, school := toSafeString (item.getField "school"),
          degree := toSafeString (item.getField "degree"),
          year := toSafeString (item.getField "year") }
      let tail := normEduItems g rest k1
      (e :: tail.1, tail.2)
    else normEduItems g rest k

/-- Normalize one persisted experience list (schema with `bullet`). -/
def normExpItems (g : Nat → String) : List Json → Nat → List ExperienceEntry × Nat
  | [], k => ([], k)
  | item :: rest, k =>
    if isObjLike item then
      let rawId := toSafeString (item.getField "id")
      let idv := if rawId = "" then g k else rawId
      let k1 := if rawId = "" then k + 1 else k
      let e : ExperienceEntry :=
        { id := idv, company := toSafeString (item.getField "company"),
          role := toSafeString (item.getField "role"),
          duration := toSafeString (item.getField "duration"),
          bullet := toSafeString (item.getField "bullet") }
      let tail := normExpItems g rest k1
      (e :: tail.1, tail.2)
    else normExpItems g rest k

/-- Normalize one persisted project list (richer schema: `techStack`
items are string-coerced and the falsy ones dropped). -/
def normProjItems (g : Nat → String) : List Json → Nat → List ProjectEntry × Nat
  | [], k => ([], k)
  | item :: rest, k =>
    if isObjLike item then
      let rawId := toSafeString (item.getField "id")
      let idv := if rawId = "" then g k else rawId
      let k1 := if rawId = "" then k + 1 else k
      let e : ProjectEntry :=
        { id := idv, title := toSafeString (item.getField "title"),
          description := toSafeString (item.getField "description"),
          techStack :=
            (match item.getField "techStack" with
             | some (.arr ts) => (ts.map toSafeStringV).filter (fun s => s != "")
             | _ => []),
          liveUrl := toSafeString (item.getField "liveUrl"),
          githubUrl := toSafeString (item.getField "githubUrl") }
      let tail := normProjItems g rest k1
      (e :: tail.1, tail.2)
    else normProjItems g rest k

/-- `parseSkillArray`: accept only an array, string-coerce then trim each
item and drop the empty ones. -/
def parseSkillArray (v : Option Json) : List String :=
  match v with
  | some (.arr items) => (items.map (fun j => jsTrim (toSafeStringV j))).filter (fun s => s != "")
  | _ => []

/-- The blank default draft (both the storage-miss branch and the
non-object branch); consumes three fresh ids, in field order. -/
def defaultDraft (g : Nat → String) (k : Nat) : ResumeDraft × Nat :=
  ({ name := "", email := "", phone := "", location := "", summary := "",
     education := [createEducationEntry (g k)],
     experience := [createExperienceEntry (g (k + 1))],
     projects := [createProjectEntry (g (k + 2))],
     technicalSkills := [], softSkills := [], toolsTechnologies := [],
     github := "", linkedin := "" }, k + 3)

/-- `Array.isArray(raw.field)` guard around a persisted education list. -/
def normEduField (g : Nat → String) (v : Option Json) (k : Nat) : List EducationEntry × Nat :=
  match v with
  | some (.arr items) => normEduItems g items k
  | _ => ([], k)

/-- `Array.isArray(raw.field)` guard around a persisted experience list. -/
def normExpField (g : Nat → String) (v : Option Json) (k : Nat) : List ExperienceEntry × Nat :=
  match v with
  | some (.arr items) => normExpItems g items k
  | _ => ([], k)

/-- `Array.isArray(raw.field)` guard around a persisted project list. -/
def normProjField (g : Nat → String) (v : Option Json) (k : Nat) : List ProjectEntry × Nat :=
  match v with
  | some (.arr items) => normProjItems g items k
  | _ => ([], k)

/-- The legacy comma-joined `skills` field: split, trim, drop blanks. -/
def legacySkillsOf (v : Option Json) : List String :=
  ((jsSplitChar ',' (toSafeString v)).map jsTrim).filter (fun s => s != "")

/-- `readResumeDraft`: normalize an arbitrary persisted blob into a
structurally valid `ResumeDraft`.  `input = none` models a missing key or
malformed JSON.  The returned counter is the next unused fresh-id index. -/
def readResumeDraft (g : Nat → String) (input : Option Json) (k : Nat) : ResumeDraft × Nat :=
  match input with
  | none => defaultDraft g k
  | some parsed =>
    if isObjLike parsed then
      let eduP := normEduField g (parsed.getField "education") k
      let expP := normExpField g (parsed.getField "experience") eduP.2
      let projP := normProjField g (parsed.getField "projects") expP.2
      let technicalSkills := parseSkillArray (parsed.getField "technicalSkills")
      let softSkills := parseSkillArray (parsed.getField "softSkills")
      let toolsTechnologies := parseSkillArray (parsed.getField "toolsTechnologies")
      let legacySkills := legacySkillsOf (parsed.getField "skills")
      let eduOut := if eduP.1 = [] then [createEducationEntry (g projP.2)] else eduP.1
      let k4 := if eduP.1 = [] then projP.2 + 1 else projP.2
      let expOut := if expP.1 = [] then [createExperienceEntry (g k4)] else expP.1
      let k5 := if expP.1 = [] then k4 + 1 else k4
      let projOut := if projP.1 = [] then [createProjectEntry (g k5)] else projP.1
      let k6 := if projP.1 = [] then k5 + 1 else k5
      ({ name := toSafeString (parsed.getField "name"),
         email := toSafeString (parsed.getField "email"),
         phone := toSafeString (parsed.getField "phone"),
         location := toSafeString (parsed.getField "location"),
         summary := toSafeString (parsed.getField "summary"),
         education := eduOut, experience := expOut, projects := projOut,
         technicalSkills := if technicalSkills = [] then legacySkills else technicalSkills,
         softSkills := softSkills, toolsTechnologies := toolsTechnologies,
         github := toSafeString (parsed.getField "github"),
         linkedin := toSafeString (parsed.getField "linkedin") }, k6)
    else defaultDraft g k

/-- `JSON.stringify` of an education entry, as a JSON value. -/
def encodeEducation (e : EducationEntry) : Json :=
  .obj [("id", .str e.id), ("school", .str e.school), ("degree", .str e.degree),
        ("year", .str e.year)]

/-- `JSON.stringify` of an experience entry, as a JSON value. -/
def encodeExperience (e : ExperienceEntry) : Json :=
  .obj [("id", .str e.id), ("company", .str e.company), ("role", .str e.role),
        ("duration", .str e.duration), ("bullet", .str e.bullet)]

/-- `JSON.stringify` of a project entry, as a JSON value. -/
def encodeProject (p : ProjectEntry) : Json :=
  .obj [("id", .str p.id), ("title", .str p.title), ("description", .str p.description),
        ("techStack", .arr (p.techStack.map .str)), ("liveUrl", .str p.liveUrl),
        ("githubUrl", .str p.githubUrl)]

/-- `JSON.stringify` of a whole draft, as the JSON value it parses back to. -/
def encodeDraft (d : ResumeDraft) : Json :=
  .obj [("name", .str d.name), ("email", .str d.email), ("phone", .str d.phone),
        ("location", .str d.location), ("summary", .str d.summary),
        ("education", .arr (d.education.map encodeEducation)),
        ("experience", .arr (d.experience.map encodeExperience)),
        ("projects", .arr (d.projects.map encodeProject)),
        ("technicalSkills", .arr (d.technicalSkills.map .str)),
        ("softSkills", .arr (d.softSkills.map .str)),
        ("toolsTechnologies", .arr (d.toolsTechnologies.map .str)),
        ("github", .str d.github), ("linkedin", .str d.linkedin)]

/-! ## Derived-content functions -/

/-- `nonEmptyEducation`: entries whose text fields are not all blank. -/
def nonEmptyEducation (d : ResumeDraft) : List EducationEntry :=
  d.education.filter (fun e =>
    jsTrim e.school != "" || jsTrim e.degree != "" || jsTrim e.year != "")

/-- `nonEmptyExperience`. -/
def nonEmptyExperience (d : ResumeDraft) : List ExperienceEntry :=
  d.experience.filter (fun e =>
    jsTrim e.company != "" || jsTrim e.role != "" || jsTrim e.duration != "" ||
      jsTrim e.bullet != "")

/-- `nonEmptyProjects` (richer schema: a non-empty tech list also counts). -/
def nonEmptyProjects (d : ResumeDraft) : List ProjectEntry :=
  d.projects.filter (fun e =>
    jsTrim e.title != "" || jsTrim e.description != "" || decide (e.techStack.length > 0) ||
      jsTrim e.liveUrl != "" || jsTrim e.githubUrl != "")

/-- `skillItems`: the flattened skill list, category order preserved. -/
def skillItems (d : ResumeDraft) : List String :=
  d.technicalSkills ++ d.softSkills ++ d.toolsTechnologies

/-! ## The readiness scorer -/

/-- JavaScript word characters, as used by the `\b` boundary in the
action-verb regular expression. -/
def isWordChar (c : Char) : Bool := c.isAlphanum || c = '_'

/-- Does the (lower-cased) verb occur in the text starting here, with a
word boundary on each side?  `prev` is the character just before the
current position (`none` at the start of the text). -/
def wordHere (verb : List Char) (prev : Option Char) (text : List Char) : Bool :=
  (match prev with | none => true | some c => !isWordChar c) &&
  verb.isPrefixOf text &&
  (match text.drop verb.length with | [] => true | c :: _ => !isWordChar c)

/-- Scan the text for a word-bounded occurrence of the verb. -/
def scanWord (verb : List Char) (prev : Option Char) : List Char → Bool
  | [] => false
  | c :: rest => wordHere verb prev (c :: rest) || scanWord verb (some c) rest

/-- Case-insensitive word-bounded containment, modelling
`/\b(built|led|...)\b/i.test(text)` for a single alternative. -/
def containsWordCI (text verb : String) : Bool :=
  scanWord (jsToLower verb).data none (jsToLower text).data

/-- The alternatives of the summary action-verb regular expression. -/
def SUMMARY_VERBS : List String :=
  ["built", "led", "designed", "improved", "implemented", "created", "optimized",
   "developed", "automated"]

/-- `summaryHasActionVerb` applied to the trimmed summary. -/
def summaryHasActionVerb (summary : String) : Bool :=
  SUMMARY_VERBS.any (fun v => containsWordCI summary v)

/-- The eleven checklist messages, in source order. -/
def MSG_NAME : String := "Add your full name (+10 points)."
def MSG_EMAIL : String := "Add an email address (+10 points)."
def MSG_SUMMARY : String := "Add a professional summary (+10 points)."
def MSG_EXPERIENCE : String := "Add an experience entry with bullet impact (+15 points)."
def MSG_EDUCATION : String := "Add at least one education entry (+10 points)."
def MSG_SKILLS : String := "Add at least 5 skills (+10 points)."
def MSG_PROJECT : String := "Add at least one project (+10 points)."
def MSG_PHONE : String := "Add your phone number (+5 points)."
def MSG_LINKEDIN : String := "Add your LinkedIn URL (+5 points)."
def MSG_GITHUB : String := "Add your GitHub URL (+5 points)."
def MSG_VERBS : String := "Use action verbs in summary (+10 points)."

/-- `computeAtsResult`: the sequential accumulation of the source is
written as a sum of guarded weights and a concatenation of guarded
suggestion singletons, in the same checklist order. -/
def computeAtsResult (draft : ResumeDraft) : AtsResult :=
  let summary := jsTrim draft.summary
  let sHasVerb := summaryHasActionVerb summary
  let hasExpBullet := (nonEmptyExperience draft).any (fun e => (jsTrim e.bullet).length > 0)
  let hasEducation := (nonEmptyEducation draft).length > 0
  let totalSkills := (skillItems draft).length
  let hasProject := (nonEmptyProjects draft).length > 0
  { score := min 100
      ((if jsTrim draft.name ≠ "" then (10 : Int) else 0) +
       (if jsTrim draft.email ≠ "" then 10 else 0) +
       (if summary.length > 50 then 10 else 0) +
       (if hasExpBullet then 15 else 0) +
       (if hasEducation then 10 else 0) +
       (if totalSkills ≥ 5 then 10 else 0) +
       (if hasProject then 10 else 0) +
       (if jsTrim draft.phone ≠ "" then 5 else 0) +
       (if jsTrim draft.linkedin ≠ "" then 5 else 0) +
       (if jsTrim draft.github ≠ "" then 5 else 0) +
       (if sHasVerb then 10 else 0)),
    suggestions :=
      (if jsTrim draft.name ≠ "" then [] else [MSG_NAME]) ++
      (if jsTrim draft.email ≠ "" then [] else [MSG_EMAIL]) ++
      (if summary.length > 50 then [] else [MSG_SUMMARY]) ++
      (if hasExpBullet then [] else [MSG_EXPERIENCE]) ++
      (if hasEducation then [] else [MSG_EDUCATION]) ++
      (if totalSkills ≥ 5 then [] else [MSG_SKILLS]) ++
      (if hasProject then [] else [MSG_PROJECT]) ++
      (if jsTrim draft.phone ≠ "" then [] else [MSG_PHONE]) ++
      (if jsTrim draft.linkedin ≠ "" then [] else [MSG_LINKEDIN]) ++
      (if jsTrim draft.github ≠ "" then [] else [MSG_GITHUB]) ++
      (if sHasVerb then [] else [MSG_VERBS]) }

/-- The number of failed checklist predicates (the spec-side measure used
by the suggestion/score duality property). -/
def failedCount (draft : ResumeDraft) : Nat :=
  let summary := jsTrim draft.summary
  (if jsTrim draft.name ≠ "" then 0 else 1) +
  (if jsTrim draft.email ≠ "" then 0 else 1) +
  (if summary.length > 50 then 0 else 1) +
  (if (nonEmptyExperience draft).any (fun e => (jsTrim e.bullet).length > 0) then 0 else 1) +
  (if (nonEmptyEducation draft).length > 0 then 0 else 1) +
  (if (skillItems draft).length ≥ 5 then 0 else 1) +
  (if (nonEmptyProjects draft).length > 0 then 0 else 1) +
  (if jsTrim draft.phone ≠ "" then 0 else 1) +
  (if jsTrim draft.linkedin ≠ "" then 0 else 1) +
  (if jsTrim draft.github ≠ "" then 0 else 1) +
  (if summaryHasActionVerb summary then 0 else 1)

/-- The summed weights of the failed checklist predicates. -/
def failedWeight (draft : ResumeDraft) : Int :=
  let summary := jsTrim draft.summary
  (if jsTrim draft.name ≠ "" then 0 else (10 : Int)) +
  (if jsTrim draft.email ≠ "" then 0 else 10) +
  (if summary.length > 50 then 0 else 10) +
  (if (nonEmptyExperience draft).any (fun e => (jsTrim e.bullet).length > 0) then 0 else 15) +
  (if (nonEmptyEducation draft).length > 0 then 0 else 10) +
  (if (skillItems draft).length ≥ 5 then 0 else 10) +
  (if (nonEmptyProjects draft).length > 0 then 0 else 10) +
  (if jsTrim draft.phone ≠ "" then 0 else 5) +
  (if jsTrim draft.linkedin ≠ "" then 0 else 5) +
  (if jsTrim draft.github ≠ "" then 0 else 5) +
  (if summaryHasActionVerb summary then 0 else 10)

/-! ## The plain-text renderer -/

/-- The contact composite line: trimmed email/phone/location, blanks
dropped, joined with a fixed separator. -/
def contactLine (d : ResumeDraft) : String :=
  strJoin " | " (([d.email, d.phone, d.location].map jsTrim).filter (fun s => s != ""))

/-- `toPlainTextResume`: the sequential `lines.push` calls are written as
a concatenation of conditional blocks, then joined and trimmed. -/
def toPlainTextResume (d : ResumeDraft) : String :=
  let education := nonEmptyEducation d
  let experience := nonEmptyExperience d
  let projects := nonEmptyProjects d
  let skills := skillItems d
  let lines : List String :=
    ["Name", if jsTrim d.name = "" then "-" else jsTrim d.name, ""] ++
    ["Contact", if contactLine d = "" then "-" else contactLine d, ""] ++
    (if jsTrim d.summary != "" then ["Summary", jsTrim d.summary, ""] else []) ++
    (if education.length > 0 then
      ["Education"] ++
        education.map (fun e =>
          "- " ++ strJoin " | " ([e.school, e.degree, e.year].filter (fun i => jsTrim i != ""))) ++
        [""]
     else []) ++
    (if experience.length > 0 then
      ["Experience"] ++
        experience.flatMap (fun e =>
          ["- " ++ strJoin " | " ([e.company, e.role, e.duration].filter (fun i => jsTrim i != ""))] ++
          (if jsTrim e.bullet != "" then ["  " ++ jsTrim e.bullet] else [])) ++
        [""]
     else []) ++
    (if projects.length > 0 then
      ["Projects"] ++
        projects.flatMap (fun p =>
          ["- " ++ (if jsTrim p.title = "" then "Project" else jsTrim p.title)] ++
          (if jsTrim p.description != "" then ["  " ++ jsTrim p.description] else []) ++
          (if p.techStack.length > 0 then ["  Tech Stack: " ++ strJoin ", " p.techStack] else []) ++
          (if jsTrim p.liveUrl != "" then ["  Live: " ++ jsTrim p.liveUrl] else []) ++
          (if jsTrim p.githubUrl != "" then ["  GitHub: " ++ jsTrim p.githubUrl] else [])) ++
        [""]
     else []) ++
    (if skills.length > 0 then
      ["Skills"] ++
        (if d.technicalSkills.length > 0 then
          ["Technical Skills: " ++ strJoin ", " d.technicalSkills] else []) ++
        (if d.softSkills.length > 0 then
          ["Soft Skills: " ++ strJoin ", " d.softSkills] else []) ++
        (if d.toolsTechnologies.length > 0 then
          ["Tools & Technologies: " ++ strJoin ", " d.toolsTechnologies] else []) ++
        [""]
     else []) ++
    (if jsTrim d.github != "" || jsTrim d.linkedin != "" then
      ["Links"] ++
        (if jsTrim d.github != "" then [jsTrim d.github] else []) ++
        (if jsTrim d.linkedin != "" then [jsTrim d.linkedin] else [])
     else [])
  jsTrim (strJoin "\n" lines)

/-! ## Skill chips -/

/-- `addUniqueChip` from the builder: ignore a blank value, ignore a
case-insensitive duplicate, else append the trimmed value. -/
def addUniqueChip (existing : List String) (value : String) : List String :=
  let normalized := jsTrim value
  if normalized = "" then existing
  else if existing.any (fun item => jsToLower item == jsToLower normalized) then existing
  else existing ++ [normalized]

/-- `removeChip`: drop every case-insensitive match. -/
def removeChip (existing : List String) (value : String) : List String :=
  existing.filter (fun item => jsToLower item != jsToLower value)

/-- No two entries of the list are equal ignoring case. -/
def noCaseDup (l : List String) : Prop :=
  l.Pairwise (fun a b => jsToLower a ≠ jsToLower b)

/-- The chip lists reachable from the empty list using only the two
maintenance operations of the builder. -/
inductive ChipReachable : List String → Prop
  | nil : ChipReachable []
  | add (l : List String) (v : String) (h : ChipReachable l) : ChipReachable (addUniqueChip l v)
  | remove (l : List String) (v : String) (h : ChipReachable l) : ChipReachable (removeChip l v)

/-- The last character of a string, when it exists, is not whitespace. -/
def lastNonWs (s : String) : Prop :=
  ∃ b, s.data.getLast? = some b ∧ b.isWhitespace = false

/-- The structural invariant established by normalization: non-empty lists,
non-empty identity tokens, and trimmed non-empty skill strings. -/
def NormalShape (d : ResumeDraft) : Prop :=
  (∀ e ∈ d.education, e.id ≠ "") ∧
  (∀ e ∈ d.experience, e.id ≠ "") ∧
  (∀ p ∈ d.projects, p.id ≠ "" ∧ ∀ t ∈ p.techStack, t ≠ "") ∧
  d.education ≠ [] ∧ d.experience ≠ [] ∧ d.projects ≠ [] ∧
  (∀ s ∈ d.technicalSkills, s ≠ "" ∧ jsTrim s = s) ∧
  (∀ s ∈ d.softSkills, s ≠ "" ∧ jsTrim s = s) ∧
  (∀ s ∈ d.toolsTechnologies, s ≠ "" ∧ jsTrim s = s)

/-! ## Concrete inputs and spec-side format definitions -/

/-- The entirely blank draft: all scalars empty, one blank entry per list,
no skills (the in-memory shape produced on first load). -/
def blankDraft : ResumeDraft :=
  { name := "", email := "", phone := "", location := "", summary := "",
    education := [{ id := "e1", school := "", degree := "", year := "" }],
    experience := [{ id := "x1", company := "", role := "", duration := "", bullet := "" }],
    projects := [{ id := "p1", title := "", description := "", techStack := [],
                   liveUrl := "", githubUrl := "" }],
    technicalSkills := [], softSkills := [], toolsTechnologies := [],
    github := "", linkedin := "" }

/-- A blank draft whose only populated field is the GitHub link. -/
def linksOnlyDraft : ResumeDraft :=
  { blankDraft with github := "https://github.com/example" }

/-- A commit history with no committed stage. -/
def artsAllPending : Nat → Option StepArtifact := fun _ => none

/-- A commit history where only stage 1 carries a committed artifact. -/
def artsStage1Done : Nat → Option StepArtifact := fun n =>
  if n = 1 then some { notes := "ok", status := "worked", screenshotName := "",
                       uploadedAt := "2024-01-01T00:00:00.000Z" }
  else none

/-- An empty submission-links record. -/
def linksEmpty : ProofLinks := { lovable := "", github := "", deploy := "" }

/-- The per-stage status line of the submission payload, as the code
produces it (the spec-mandated format differs only in the word used for
the stage ordinal). -/
def stepStatusLine (arts : Nat → Option StepArtifact) (step : BuildStep) : String :=
  "Step " ++ toString step.number ++ " (" ++ step.title ++ "): " ++
    (if stepComplete (arts step.number) then "Complete" else "Pending")

/-- The per-stage status line as the claim words it, with the literal
word `Stage`. -/
def stageStatusLineClaim (arts : Nat → Option StepArtifact) (step : BuildStep) : String :=
  "Stage " ++ toString step.number ++ " (" ++ step.title ++ "): " ++
    (if stepComplete (arts step.number) then "Complete" else "Pending")

/-- The link fallback: an empty stored link renders as the `N/A` placeholder. -/
def linkValueOrNA (s : String) : String := if s = "" then "N/A" else s

/-- The third step of the table, used for the gating scenario. -/
def stage3 : BuildStep :=
  { number := 3, route := "/rb/03-architecture", title := "Architecture",
    subtitle := "Choose major systems and platform boundaries.",
    prompt := "Propose architecture blocks, data flow, and external integrations." }

/-! ## Helper lemmas: strings and trimming -/

theorem strData_append (a b : String) : (a ++ b).data = a.data ++ b.data := rfl

theorem strExt {a b : String} (h : a.data = b.data) : a = b := by
  cases a; cases b; exact congrArg String.mk h

theorem strNe_iff_data {a : String} : a ≠ "" ↔ a.data ≠ [] := by
  constructor
  · intro h hd
    exact h (strExt (by simpa using hd))
  · intro h hd
    exact h (by simpa using congrArg String.data hd)

theorem dropWs_cons_neg {c : Char} {t : List Char} (h : c.isWhitespace = false) :
    dropWs (c :: t) = c :: t := by
  simp [dropWs, List.dropWhile_cons, h]

theorem dropWs_cons_ws {c : Char} {t : List Char} (h : c.isWhitespace = true) :
    dropWs (c :: t) = dropWs t := by
  simp [dropWs, List.dropWhile_cons, h]

theorem dropWs_head {l : List Char} {a : Char} {t : List Char}
    (h : dropWs l = a :: t) : a.isWhitespace = false := by
  induction l with
  | nil => simp [dropWs] at h
  | cons c r ih =>
    by_cases hc : c.isWhitespace
    · exact ih (by rwa [dropWs_cons_ws hc] at h)
    · rw [dropWs_cons_neg (by simpa using hc)] at h
      cases h
      simpa using hc

theorem dropWs_getLast {l : List Char} (h : dropWs l ≠ []) :
    (dropWs l).getLast? = l.getLast? := by
  obtain ⟨pre, hp⟩ := List.dropWhile_suffix (l := l) (fun c => c.isWhitespace)
  conv_rhs => rw [← hp]
  rw [List.getLast?_append]
  obtain ⟨b, hb⟩ := List.getLast?_isSome.2 h |> Option.isSome_iff_exists.1
  simp [dropWs] at hb ⊢
  simp [hb]

theorem rtrim_getLast {l : List Char} (h : rtrimChars l ≠ []) :
    ∃ b, (rtrimChars l).getLast? = some b ∧ b.isWhitespace = false := by
  unfold rtrimChars at h ⊢
  cases hd : dropWs l.reverse with
  | nil => simp [hd] at h
  | cons a t =>
    refine ⟨a, ?_, dropWs_head hd⟩
    simp [List.getLast?_reverse]

theorem rtrim_eq_self {l : List Char} {b : Char} (h : l.getLast? = some b)
    (hb : b.isWhitespace = false) : rtrimChars l = l := by
  unfold rtrimChars
  rw [← List.head?_reverse] at h
  cases hrev : l.reverse with
  | nil => simp [hrev] at h
  | cons c t =>
    rw [hrev] at h
    simp only [List.head?_cons, Option.some.injEq] at h
    subst h
    rw [dropWs_cons_neg hb, ← hrev, List.reverse_reverse]

theorem rtrim_append_ws {l : List Char} {c : Char} (hc : c.isWhitespace = true) :
    rtrimChars (l ++ [c]) = rtrimChars l := by
  unfold rtrimChars
  rw [List.reverse_append]
  simp only [List.reverse_cons, List.reverse_nil, List.nil_append, List.singleton_append]
  rw [dropWs_cons_ws hc]

theorem trimChars_append_ws {l : List Char} {c : Char} (hc : c.isWhitespace = true) :
    trimChars (l ++ [c]) = trimChars l := by
  unfold trimChars
  rw [rtrim_append_ws hc]

theorem trimChars_eq_self {l : List Char} {a b : Char}
    (hhead : l.head? = some a) (ha : a.isWhitespace = false)
    (hlast : l.getLast? = some b) (hb : b.isWhitespace = false) : trimChars l = l := by
  unfold trimChars
  rw [rtrim_eq_self hlast hb]
  cases l with
  | nil => simp at hhead
  | cons c t =>
    simp only [List.head?_cons, Option.some.injEq] at hhead
    subst hhead
    exact dropWs_cons_neg ha

theorem trimChars_idem (l : List Char) : trimChars (trimChars l) = trimChars l := by
  cases h : trimChars l with
  | nil => rfl
  | cons a t =>
    have ha : a.isWhitespace = false := dropWs_head (l := rtrimChars l) h
    have hrne : rtrimChars l ≠ [] := by
      intro hr
      rw [trimChars, hr] at h
      simp [dropWs] at h
    obtain ⟨b, hbl, hbw⟩ := rtrim_getLast hrne
    have hlast : (trimChars l).getLast? = some b := by
      rw [trimChars, dropWs_getLast (by rw [← trimChars, h]; simp), hbl]
    rw [← h]
    exact trimChars_eq_self (by rw [h]; rfl) ha hlast hbw

theorem jsTrim_idem (s : String) : jsTrim (jsTrim s) = jsTrim s := by
  unfold jsTrim
  exact congrArg String.mk (trimChars_idem s.data)

theorem jsTrim_lastNonWs {s : String} (h : jsTrim s ≠ "") : lastNonWs (jsTrim s) := by
  have hdata : (jsTrim s).data = trimChars s.data := rfl
  have hne : trimChars s.data ≠ [] := by
    intro hc
    exact strNe_iff_data.1 h (by rw [hdata, hc])
  have hrne : rtrimChars s.data ≠ [] := by
    intro hr
    rw [trimChars, hr] at hne
    simp [dropWs] at hne
  obtain ⟨b, hbl, hbw⟩ := rtrim_getLast hrne
  refine ⟨b, ?_, hbw⟩
  rw [hdata, trimChars, dropWs_getLast (by rw [← trimChars]; exact hne), hbl]

theorem strJoin_lastNonWs (sep : String) (parts : List String) (hne : parts ≠ [])
    (h : ∀ p ∈ parts, p ≠ "" ∧ lastNonWs p) :
    strJoin sep parts ≠ "" ∧ lastNonWs (strJoin sep parts) := by
  induction parts with
  | nil => exact absurd rfl hne
  | cons x rest ih =>
    cases rest with
    | nil => exact ⟨(h x (by simp)).1, (h x (by simp)).2⟩
    | cons y r =>
      obtain ⟨htne, b, hb, hbw⟩ := ih (by simp) (fun p hp => h p (by simp [hp]))
      constructor
      · rw [strJoin]
        rw [strNe_iff_data, strData_append, strData_append]
        intro hcontra
        have := List.append_eq_nil.1 hcontra
        exact strNe_iff_data.1 htne this.2
      · refine ⟨b, ?_, hbw⟩
        rw [strJoin, strData_append, List.getLast?_append]
        simp [hb]

theorem splitCharAux_no_sep (sep : Char) (l acc : List Char) (h : sep ∉ l) :
    splitCharAux sep l acc = [String.mk (acc.reverse ++ l)] := by
  induction l generalizing acc with
  | nil => simp [splitCharAux]
  | cons c rest ih =>
    have hc : c ≠ sep := fun hcc => h (hcc ▸ List.mem_cons_self c rest)
    rw [splitCharAux, if_neg hc, ih _ (fun hm => h (List.mem_cons_of_mem c hm))]
    simp

theorem splitCharAux_split (sep : Char) (l rest acc : List Char) (h : sep ∉ l) :
    splitCharAux sep (l ++ sep :: rest) acc =
      String.mk (acc.reverse ++ l) :: splitCharAux sep rest [] := by
  induction l generalizing acc with
  | nil => simp [splitCharAux]
  | cons c tail ih =>
    have hc : c ≠ sep := fun hcc => h (hcc ▸ List.mem_cons_self c tail)
    rw [List.cons_append, splitCharAux, if_neg hc,
      ih _ (fun hm => h (List.mem_cons_of_mem c hm))]
    simp

theorem jsSplit_strJoin (sep : Char) (sepStr : String) (hsep : sepStr.data = [sep])
    (parts : List String) (hne : parts ≠ []) (h : ∀ p ∈ parts, sep ∉ p.data) :
    jsSplitChar sep (strJoin sepStr parts) = parts := by
  induction parts with
  | nil => exact absurd rfl hne
  | cons x rest ih =>
    cases rest with
    | nil =>
      rw [strJoin, jsSplitChar, splitCharAux_no_sep sep _ _ (h x (by simp))]
      simp
    | cons y r =>
      rw [strJoin, jsSplitChar, strData_append, strData_append, hsep,
        List.append_assoc, List.singleton_append,
        splitCharAux_split sep _ _ _ (h x (by simp))]
      rw [jsSplitChar] at ih
      rw [ih (by simp) (fun p hp => h p (by simp [hp]))]
      simp

/-! ## Helper lemmas: the normalizer -/

theorem normEduItems_ids (g : Nat → String) (hg : ∀ n, g n ≠ "") (items : List Json) :
    ∀ k, ∀ e ∈ (normEduItems g items k).1, e.id ≠ "" := by
  induction items with
  | nil => intro k e he; simp [normEduItems] at he
  | cons item rest ih =>
    intro k e he
    rw [normEduItems] at he
    by_cases hobj : isObjLike item
    · rw [if_pos hobj] at he
      simp only [List.mem_cons] at he
      rcases he with he | he
      · subst he
        by_cases hid : toSafeString (item.getField "id") = "" <;> simp [hid, hg]
      · exact ih _ e he
    · rw [if_neg hobj] at he
      exact ih _ e he

theorem normExpItems_ids (g : Nat → String) (hg : ∀ n, g n ≠ "") (items : List Json) :
    ∀ k, ∀ e ∈ (normExpItems g items k).1, e.id ≠ "" := by
  induction items with
  | nil => intro k e he; simp [normExpItems] at he
  | cons item rest ih =>
    intro k e he
    rw [normExpItems] at he
    by_cases hobj : isObjLike item
    · rw [if_pos hobj] at he
      simp only [List.mem_cons] at he
      rcases he with he | he
      · subst he
        by_cases hid : toSafeString (item.getField "id") = "" <;> simp [hid, hg]
      · exact ih _ e he
    · rw [if_neg hobj] at he
      exact ih _ e he

theorem normProjItems_shape (g : Nat → String) (hg : ∀ n, g n ≠ "") (items : List Json) :
    ∀ k, ∀ p ∈ (normProjItems g items k).1, p.id ≠ "" ∧ ∀ t ∈ p.techStack, t ≠ "" := by
  induction items with
  | nil => intro k p hp; simp [normProjItems] at hp
  | cons item rest ih =>
    intro k p hp
    rw [normProjItems] at hp
    by_cases hobj : isObjLike item
    · rw [if_pos hobj] at hp
      simp only [List.mem_cons] at hp
      rcases hp with hp | hp
      · subst hp
        constructor
        · by_cases hid : toSafeString (item.getField "id") = "" <;> simp [hid, hg]
        · intro t ht
          simp only at ht
          cases hty : item.getField "techStack" with
          | none => rw [hty] at ht; simp at ht
          | some v =>
            rw [hty] at ht
            cases v with
            | arr ts =>
              simp only [List.mem_filter] at ht
              simpa using ht.2
            | null => simp at ht
            | bool b => simp at ht
            | num n => simp at ht
            | str s => simp at ht
            | obj fs => simp at ht
      · exact ih _ p hp
    · rw [if_neg hobj] at hp
      exact ih _ p hp

theorem parseSkillArray_shape (v : Option Json) :
    ∀ s ∈ parseSkillArray v, s ≠ "" ∧ jsTrim s = s := by
  intro s hs
  unfold parseSkillArray at hs
  cases v with
  | none => simp at hs
  | some j =>
    cases j with
    | arr items =>
      simp only [List.mem_filter, List.mem_map] at hs
      obtain ⟨⟨jv, _, rfl⟩, hne⟩ := hs
      exact ⟨by simpa using hne, jsTrim_idem _⟩
    | null => simp at hs
    | bool b => simp at hs
    | num n => simp at hs
    | str st => simp at hs
    | obj fs => simp at hs

theorem legacySkills_shape (raw : String) :
    ∀ s ∈ ((jsSplitChar ',' raw).map jsTrim).filter (fun s => s != ""),
      s ≠ "" ∧ jsTrim s = s := by
  intro s hs
  simp only [List.mem_filter, List.mem_map] at hs
  obtain ⟨⟨t, _, rfl⟩, hne⟩ := hs
  exact ⟨by simpa using hne, jsTrim_idem _⟩

theorem normEduField_ids (g : Nat → String) (hg : ∀ n, g n ≠ "") (v : Option Json) (k : Nat) :
    ∀ e ∈ (normEduField g v k).1, e.id ≠ "" := by
  unfold normEduField
  cases v with
  | none => simp
  | some j =>
    cases j with
    | arr items => exact normEduItems_ids g hg items k
    | null => simp
    | bool b => simp
    | num n => simp
    | str s => simp
    | obj fs => simp

theorem normExpField_ids (g : Nat → String) (hg : ∀ n, g n ≠ "") (v : Option Json) (k : Nat) :
    ∀ e ∈ (normExpField g v k).1, e.id ≠ "" := by
  unfold normExpField
  cases v with
  | none => simp
  | some j =>
    cases j with
    | arr items => exact normExpItems_ids g hg items k
    | null => simp
    | bool b => simp
    | num n => simp
    | str s => simp
    | obj fs => simp

theorem normProjField_shape (g : Nat → String) (hg : ∀ n, g n ≠ "") (v : Option Json) (k : Nat) :
    ∀ p ∈ (normProjField g v k).1, p.id ≠ "" ∧ ∀ t ∈ p.techStack, t ≠ "" := by
  unfold normProjField
  cases v with
  | none => simp
  | some j =>
    cases j with
    | arr items => exact normProjItems_shape g hg items k
    | null => simp
    | bool b => simp
    | num n => simp
    | str s => simp
    | obj fs => simp

theorem legacySkillsOf_shape (v : Option Json) :
    ∀ s ∈ legacySkillsOf v, s ≠ "" ∧ jsTrim s = s :=
  legacySkills_shape (toSafeString v)

theorem readResumeDraft_shape (g : Nat → String) (hg : ∀ n, g n ≠ "")
    (x : Option Json) (k : Nat) : NormalShape (readResumeDraft g x k).1 := by
  have hdefault : ∀ j, NormalShape (defaultDraft g j).1 := by
    intro j
    refine ⟨?_, ?_, ?_, ?_, ?_, ?_, ?_, ?_, ?_⟩ <;>
      simp [defaultDraft, createEducationEntry, createExperienceEntry,
        createProjectEntry, hg]
  cases x with
  | none => exact hdefault k
  | some parsed =>
    by_cases hobj : isObjLike parsed
    · rw [readResumeDraft, if_pos hobj]
      refine ⟨?_, ?_, ?_, ?_, ?_, ?_, ?_, ?_, ?_⟩
      · intro e he
        dsimp only at he
        by_cases hempty : (normEduField g (parsed.getField "education") k).1 = []
        · rw [if_pos hempty] at he
          simp only [List.mem_singleton] at he
          subst he
          simp [createEducationEntry, hg]
        · rw [if_neg hempty] at he
          exact normEduField_ids g hg _ _ e he
      · intro e he
        dsimp only at he
        by_cases hempty :
            (normExpField g (parsed.getField "experience")
              (normEduField g (parsed.getField "education") k).2).1 = []
        · rw [if_pos hempty] at he
          simp only [List.mem_singleton] at he
          subst he
          simp [createExperienceEntry, hg]
        · rw [if_neg hempty] at he
          exact normExpField_ids g hg _ _ e he
      · intro p hp
        dsimp only at hp
        by_cases hempty :
            (normProjField g (parsed.getField "projects")
              (normExpField g (parsed.getField "experience")
                (normEduField g (parsed.getField "education") k).2).2).1 = []
        · rw [if_pos hempty] at hp
          simp only [List.mem_singleton] at hp
          subst hp
          simp [createProjectEntry, hg]
        · rw [if_neg hempty] at hp
          exact normProjField_shape g hg _ _ p hp
      · dsimp only
        split <;> simp_all
      · dsimp only
        split <;> simp_all
      · dsimp only
        split <;> simp_all
      · intro s hs
        dsimp only at hs
        by_cases hempty : parseSkillArray (parsed.getField "technicalSkills") = []
        · rw [if_pos hempty] at hs
          exact legacySkillsOf_shape _ s hs
        · rw [if_neg hempty] at hs
          exact parseSkillArray_shape _ s hs
      · intro s hs
        dsimp only at hs
        exact parseSkillArray_shape _ s hs
      · intro s hs
        dsimp only at hs
        exact parseSkillArray_shape _ s hs
    · rw [readResumeDraft, if_neg hobj]
      exact hdefault k

theorem roundEduItems (g : Nat → String) (l : List EducationEntry) (k : Nat)
    (h : ∀ e ∈ l, e.id ≠ "") : normEduItems g (l.map encodeEducation) k = (l, k) := by
  induction l generalizing k with
  | nil => rfl
  | cons e t ih =>
    obtain ⟨i, sc, dg, yr⟩ := e
    have hid : i ≠ "" := by simpa using h ⟨i, sc, dg, yr⟩ (by simp)
    have h0 : isObjLike (encodeEducation ⟨i, sc, dg, yr⟩) = true := rfl
    have h1 : (encodeEducation ⟨i, sc, dg, yr⟩).getField "id" = some (.str i) := rfl
    have h2 : (encodeEducation ⟨i, sc, dg, yr⟩).getField "school" = some (.str sc) := rfl
    have h3 : (encodeEducation ⟨i, sc, dg, yr⟩).getField "degree" = some (.str dg) := rfl
    have h4 : (encodeEducation ⟨i, sc, dg, yr⟩).getField "year" = some (.str yr) := rfl
    simp only [List.map_cons, normEduItems, h0, h1, h2, h3, h4, if_true, toSafeString,
      if_neg hid, ih k (fun x hx => h x (List.mem_cons_of_mem _ hx))]

theorem roundExpItems (g : Nat → String) (l : List ExperienceEntry) (k : Nat)
    (h : ∀ e ∈ l, e.id ≠ "") : normExpItems g (l.map encodeExperience) k = (l, k) := by
  induction l generalizing k with
  | nil => rfl
  | cons e t ih =>
    obtain ⟨i, co, ro, du, bu⟩ := e
    have hid : i ≠ "" := by simpa using h ⟨i, co, ro, du, bu⟩ (by simp)
    have h0 : isObjLike (encodeExperience ⟨i, co, ro, du, bu⟩) = true := rfl
    have h1 : (encodeExperience ⟨i, co, ro, du, bu⟩).getField "id" = some (.str i) := rfl
    have h2 : (encodeExperience ⟨i, co, ro, du, bu⟩).getField "company" = some (.str co) := rfl
    have h3 : (encodeExperience ⟨i, co, ro, du, bu⟩).getField "role" = some (.str ro) := rfl
    have h4 : (encodeExperience ⟨i, co, ro, du, bu⟩).getField "duration" = some (.str du) := rfl
    have h5 : (encodeExperience ⟨i, co, ro, du, bu⟩).getField "bullet" = some (.str bu) := rfl
    simp only [List.map_cons, normExpItems, h0, h1, h2, h3, h4, h5, if_true, toSafeString,
      if_neg hid, ih k (fun x hx => h x (List.mem_cons_of_mem _ hx))]

theorem roundTechStack (ts : List String) (h : ∀ t ∈ ts, t ≠ "") :
    ((ts.map Json.str).map toSafeStringV).filter (fun s => s != "") = ts := by
  rw [List.map_map]
  have hmap : ts.map (toSafeStringV ∘ Json.str) = ts := by
    rw [List.map_congr_left (fun a _ => rfl : ∀ a ∈ ts, (toSafeStringV ∘ Json.str) a = id a)]
    exact List.map_id ts
  rw [hmap]
  exact List.filter_eq_self.2 (fun a ha => by simpa using h a ha)

theorem roundProjItems (g : Nat → String) (l : List ProjectEntry) (k : Nat)
    (h : ∀ p ∈ l, p.id ≠ "" ∧ ∀ t ∈ p.techStack, t ≠ "") :
    normProjItems g (l.map encodeProject) k = (l, k) := by
  induction l generalizing k with
  | nil => rfl
  | cons p t ih =>
    obtain ⟨i, ti, de, ts, lu, gu⟩ := p
    have hid : i ≠ "" := by simpa using (h ⟨i, ti, de, ts, lu, gu⟩ (by simp)).1
    have hts : ∀ x ∈ ts, x ≠ "" := by simpa using (h ⟨i, ti, de, ts, lu, gu⟩ (by simp)).2
    have h0 : isObjLike (encodeProject ⟨i, ti, de, ts, lu, gu⟩) = true := rfl
    have h1 : (encodeProject ⟨i, ti, de, ts, lu, gu⟩).getField "id" = some (.str i) := rfl
    have h2 : (encodeProject ⟨i, ti, de, ts, lu, gu⟩).getField "title" = some (.str ti) := rfl
    have h3 : (encodeProject ⟨i, ti, de, ts, lu, gu⟩).getField "description" = some (.str de) := rfl
    have h4 : (encodeProject ⟨i, ti, de, ts, lu, gu⟩).getField "techStack" =
        some (.arr (ts.map .str)) := rfl
    have h5 : (encodeProject ⟨i, ti, de, ts, lu, gu⟩).getField "liveUrl" = some (.str lu) := rfl
    have h6 : (encodeProject ⟨i, ti, de, ts, lu, gu⟩).getField "githubUrl" = some (.str gu) := rfl
    simp only [List.map_cons, normProjItems, h0, h1, h2, h3, h4, h5, h6, if_true, toSafeString,
      if_neg hid, roundTechStack ts hts,
      ih k (fun x hx => h x (List.mem_cons_of_mem _ hx))]

theorem roundSkillArray (l : List String) (h : ∀ s ∈ l, s ≠ "" ∧ jsTrim s = s) :
    parseSkillArray (some (.arr (l.map .str))) = l := by
  show ((l.map Json.str).map (fun j => jsTrim (toSafeStringV j))).filter (fun s => s != "") = l
  have hmap : (l.map Json.str).map (fun j => jsTrim (toSafeStringV j)) = l := by
    rw [List.map_map]
    rw [List.map_congr_left (fun a ha => ?_ : ∀ a ∈ l,
      ((fun j => jsTrim (toSafeStringV j)) ∘ Json.str) a = id a)]
    · exact List.map_id l
    · exact (h a ha).2
  rw [hmap]
  exact List.filter_eq_self.2 (fun a ha => by simpa using (h a ha).1)

theorem readResumeDraft_encode (d : ResumeDraft) (h : NormalShape d)
    (g : Nat → String) (k : Nat) :
    readResumeDraft g (some (encodeDraft d)) k = (d, k) := by
  obtain ⟨hEduIds, hExpIds, hProjSh, hEduNe, hExpNe, hProjNe, hTech, hSoft, hTools⟩ := h
  have e1 : (encodeDraft d).getField "name" = some (.str d.name) := rfl
  have e2 : (encodeDraft d).getField "email" = some (.str d.email) := rfl
  have e3 : (encodeDraft d).getField "phone" = some (.str d.phone) := rfl
  have e4 : (encodeDraft d).getField "location" = some (.str d.location) := rfl
  have e5 : (encodeDraft d).getField "summary" = some (.str d.summary) := rfl
  have e6 : (encodeDraft d).getField "education" =
      some (.arr (d.education.map encodeEducation)) := rfl
  have e7 : (encodeDraft d).getField "experience" =
      some (.arr (d.experience.map encodeExperience)) := rfl
  have e8 : (encodeDraft d).getField "projects" =
      some (.arr (d.projects.map encodeProject)) := rfl
  have e9 : (encodeDraft d).getField "technicalSkills" =
      some (.arr (d.technicalSkills.map .str)) := rfl
  have e10 : (encodeDraft d).getField "softSkills" =
      some (.arr (d.softSkills.map .str)) := rfl
  have e11 : (encodeDraft d).getField "toolsTechnologies" =
      some (.arr (d.toolsTechnologies.map .str)) := rfl
  have e12 : (encodeDraft d).getField "github" = some (.str d.github) := rfl
  have e13 : (encodeDraft d).getField "linkedin" = some (.str d.linkedin) := rfl
  have e14 : (encodeDraft d).getField "skills" = none := rfl
  have hleg : legacySkillsOf none = [] := rfl
  rw [readResumeDraft, if_pos (show isObjLike (encodeDraft d) = true from rfl)]
  simp only [e1, e2, e3, e4, e5, e6, e7, e8, e9, e10, e11, e12, e13, e14,
    normEduField, normExpField, normProjField, toSafeString, hleg,
    roundEduItems g d.education k hEduIds]
  simp only [roundExpItems g d.experience k hExpIds]
  simp only [roundProjItems g d.projects k hProjSh]
  simp only [roundSkillArray d.technicalSkills hTech,
    roundSkillArray d.softSkills hSoft, roundSkillArray d.toolsTechnologies hTools,
    if_neg hEduNe, if_neg hExpNe, if_neg hProjNe]
  by_cases htech : d.technicalSkills = []
  · simp only [if_pos htech]
    rw [show ([] : List String) = d.technicalSkills from htech.symm]
  · simp [htech]

/-! ## Claim theorems -/

/-- C1 (Normalization totality): for every persisted input — absent,
malformed, a non-object scalar, an array, or a partially-typed object —
`readResumeDraft` returns a draft whose three list sections are all
non-empty.  Totality and the all-scalars-are-strings part are enforced by
the Lean types of `readResumeDraft` itself, which is a total function into
`ResumeDraft`; this theorem settles the remaining list-non-emptiness. -/
theorem normalization_totality (g : Nat → String) (x : Option Json) (k : Nat) :
    (readResumeDraft g x k).1.education ≠ [] ∧
    (readResumeDraft g x k).1.experience ≠ [] ∧
    (readResumeDraft g x k).1.projects ≠ [] := by
  cases x with
  | none => refine ⟨?_, ?_, ?_⟩ <;> simp [readResumeDraft, defaultDraft]
  | some parsed =>
    by_cases hobj : isObjLike parsed
    · rw [readResumeDraft, if_pos hobj]
      refine ⟨?_, ?_, ?_⟩ <;> (dsimp only; split <;> simp_all)
    · rw [readResumeDraft, if_neg hobj]
      refine ⟨?_, ?_, ?_⟩ <;> simp [defaultDraft]

/-- C7 (Normalization idempotence): re-normalizing the JSON serialization
of an already-normalized draft reproduces that draft exactly — in
particular the ids generated by the first pass are preserved and the
second pass consumes no fresh ids (its counter `j` is returned
unchanged).  The hypothesis states that the id source never produces an
empty token (true of `crypto.randomUUID`). -/
theorem normalize_idempotent (g : Nat → String) (hg : ∀ n, g n ≠ "")
    (x : Option Json) (k j : Nat) :
    readResumeDraft g (some (encodeDraft (readResumeDraft g x k).1)) j =
      ((readResumeDraft g x k).1, j) :=
  readResumeDraft_encode _ (readResumeDraft_shape g hg x k) g j

/-- Witness for C7 at the concrete id supply `fun _ => "u"`, the absent
blob, and counters `0`, `5`. -/
theorem normalize_idempotent_witness :
    readResumeDraft (fun _ => "u")
      (some (encodeDraft (readResumeDraft (fun _ => "u") none 0).1)) 5 =
      ((readResumeDraft (fun _ => "u") none 0).1, 5) :=
  normalize_idempotent (fun _ => "u") (fun _ => by simp) none 0 5

theorem len_guard (c : Prop) [Decidable c] (m : String) :
    (if c then ([] : List String) else [m]).length = if c then 0 else 1 := by
  split <;> rfl

/-- C6 (Score boundedness): the readiness score always lies in [0, 100];
the upper end is enforced by the final clamp and the lower end by the
non-negativity of every weight. -/
theorem score_bounded (d : ResumeDraft) :
    0 ≤ (computeAtsResult d).score ∧ (computeAtsResult d).score ≤ 100 := by
  dsimp only [computeAtsResult]
  constructor
  · have hnn : ∀ (c : Prop) (inst : Decidable c) (w : Int), 0 ≤ w → 0 ≤ (if c then w else 0) := by
      intro c inst w hw
      split <;> simp [hw]
    refine le_min (by norm_num) ?_
    refine add_nonneg (add_nonneg (add_nonneg (add_nonneg (add_nonneg (add_nonneg
      (add_nonneg (add_nonneg (add_nonneg (add_nonneg ?_ ?_) ?_) ?_) ?_) ?_) ?_) ?_) ?_) ?_) ?_ <;>
      exact hnn _ _ _ (by norm_num)
  · exact min_le_left _ _

theorem duality_weights (c1 c2 c3 c4 c5 c6 c7 c8 c9 c10 c11 : Prop)
    [Decidable c1] [Decidable c2] [Decidable c3] [Decidable c4] [Decidable c5]
    [Decidable c6] [Decidable c7] [Decidable c8] [Decidable c9] [Decidable c10]
    [Decidable c11] :
    (100 : Int) - min 100
      ((if c1 then (10 : Int) else 0) + (if c2 then (10 : Int) else 0) +
       (if c3 then (10 : Int) else 0) + (if c4 then (15 : Int) else 0) +
       (if c5 then (10 : Int) else 0) + (if c6 then (10 : Int) else 0) +
       (if c7 then (10 : Int) else 0) + (if c8 then (5 : Int) else 0) +
       (if c9 then (5 : Int) else 0) + (if c10 then (5 : Int) else 0) +
       (if c11 then (10 : Int) else 0)) =
    (if c1 then 0 else (10 : Int)) + (if c2 then 0 else (10 : Int)) +
      (if c3 then 0 else (10 : Int)) + (if c4 then 0 else (15 : Int)) +
      (if c5 then 0 else (10 : Int)) + (if c6 then 0 else (10 : Int)) +
      (if c7 then 0 else (10 : Int)) + (if c8 then 0 else (5 : Int)) +
      (if c9 then 0 else (5 : Int)) + (if c10 then 0 else (5 : Int)) +
      (if c11 then 0 else (10 : Int)) := by
  have pair : ∀ (c : Prop) (inst : Decidable c) (w : Int), 0 ≤ w →
      (if c then w else 0) + (if c then 0 else w) = w ∧ 0 ≤ (if c then 0 else w) := by
    intro c inst w hw
    split <;> simp [hw]
  obtain ⟨e1, r1⟩ := pair c1 inferInstance 10 (by norm_num)
  obtain ⟨e2, r2⟩ := pair c2 inferInstance 10 (by norm_num)
  obtain ⟨e3, r3⟩ := pair c3 inferInstance 10 (by norm_num)
  obtain ⟨e4, r4⟩ := pair c4 inferInstance 15 (by norm_num)
  obtain ⟨e5, r5⟩ := pair c5 inferInstance 10 (by norm_num)
  obtain ⟨e6, r6⟩ := pair c6 inferInstance 10 (by norm_num)
  obtain ⟨e7, r7⟩ := pair c7 inferInstance 10 (by norm_num)
  obtain ⟨e8, r8⟩ := pair c8 inferInstance 5 (by norm_num)
  obtain ⟨e9, r9⟩ := pair c9 inferInstance 5 (by norm_num)
  obtain ⟨e10, r10⟩ := pair c10 inferInstance 5 (by norm_num)
  obtain ⟨e11, r11⟩ := pair c11 inferInstance 10 (by norm_num)
  have hle : (if c1 then (10 : Int) else 0) + (if c2 then (10 : Int) else 0) +
      (if c3 then (10 : Int) else 0) + (if c4 then (15 : Int) else 0) +
      (if c5 then (10 : Int) else 0) + (if c6 then (10 : Int) else 0) +
      (if c7 then (10 : Int) else 0) + (if c8 then (5 : Int) else 0) +
      (if c9 then (5 : Int) else 0) + (if c10 then (5 : Int) else 0) +
      (if c11 then (10 : Int) else 0) ≤ 100 := by linarith
  rw [min_eq_right hle]
  linarith

/-- C3 (Suggestion/score duality): the suggestion list has exactly one
entry per failed checklist predicate, and `100 - score` is the summed
weight of the failed predicates (the weight table sums to 100, so the
clamp never fires). -/
theorem suggestion_score_duality (d : ResumeDraft) :
    (computeAtsResult d).suggestions.length = failedCount d ∧
    (100 : Int) - (computeAtsResult d).score = failedWeight d := by
  dsimp only [computeAtsResult, failedCount, failedWeight]
  constructor
  · simp only [List.length_append, len_guard]
  · exact duality_weights _ _ _ _ _ _ _ _ _ _ _

/-- C4 counterexample: on the entirely blank draft the scorer does return
score 0, but its suggestion list has 11 entries — one per checklist
predicate of the code, which has 11 predicates, not 10 — so the claimed
pair (score 0, exactly 10 suggestions) is false. -/
theorem blank_draft_not_ten :
    ¬ ((computeAtsResult blankDraft).score = 0 ∧
       (computeAtsResult blankDraft).suggestions.length = 10) := by
  intro h
  exact absurd h.2 (by decide)

/-- C4 (amended): the entirely blank draft scores 0 and its suggestion
list is exactly the 11 checklist messages, one per predicate, in fixed
checklist order. -/
theorem blank_draft_result :
    (computeAtsResult blankDraft).score = 0 ∧
    (computeAtsResult blankDraft).suggestions =
      [MSG_NAME, MSG_EMAIL, MSG_SUMMARY, MSG_EXPERIENCE, MSG_EDUCATION, MSG_SKILLS,
       MSG_PROJECT, MSG_PHONE, MSG_LINKEDIN, MSG_GITHUB, MSG_VERBS] := by
  constructor
  · decide
  · decide

/-- C5 (Score monotonicity for email): filling the email field of a draft
whose email was blank never lowers the score (it raises it by exactly the
email weight before clamping), and the suggestion list of the updated
draft is the original list with exactly the email suggestion removed. -/
theorem email_monotone (d : ResumeDraft) (e : String)
    (h0 : jsTrim d.email = "") (h1 : jsTrim e ≠ "") :
    (computeAtsResult d).score ≤ (computeAtsResult { d with email := e }).score ∧
    (computeAtsResult { d with email := e }).suggestions =
      (computeAtsResult d).suggestions.erase MSG_EMAIL := by
  have p4 : nonEmptyExperience { d with email := e } = nonEmptyExperience d := rfl
  have p5 : nonEmptyEducation { d with email := e } = nonEmptyEducation d := rfl
  have p6 : skillItems { d with email := e } = skillItems d := rfl
  have p7 : nonEmptyProjects { d with email := e } = nonEmptyProjects d := rfl
  have hnd : ¬ (jsTrim d.email ≠ "") := by simp [h0]
  dsimp only [computeAtsResult]
  rw [p4, p5, p6, p7]
  constructor
  · rw [if_pos h1, if_neg hnd]
    refine min_le_min (le_refl _) ?_
    have : ∀ (c : Prop) (inst : Decidable c) (w : Int), 0 ≤ w → 0 ≤ (if c then w else 0) := by
      intro c inst w hw
      split <;> simp [hw]
    linarith
  · rw [if_pos h1, if_neg hnd]
    have hmsg : MSG_NAME ≠ MSG_EMAIL := by decide
    by_cases hc1 : jsTrim d.name ≠ ""
    · simp [hc1, List.erase_cons_head]
    · simp only [if_neg hc1, List.nil_append, List.singleton_append, List.cons_append]
      rw [List.erase_cons_tail, List.erase_cons_head]
      simpa using hmsg

/-- Witness for C5 at the blank draft and the concrete email `a@b.c`. -/
theorem email_monotone_witness :
    (computeAtsResult blankDraft).score ≤
      (computeAtsResult { blankDraft with email := "a@b.c" }).score ∧
    (computeAtsResult { blankDraft with email := "a@b.c" }).suggestions =
      (computeAtsResult blankDraft).suggestions.erase MSG_EMAIL :=
  email_monotone blankDraft "a@b.c" (by decide) (by decide)

/-- C2 (Gating invariant): for every artifact-commit history, the first
incomplete step `f` computed by `getFirstIncompleteStep` is the lowest
stage ordinal lacking a truthy commit stamp, the set of unlocked stages is
exactly the prefix of ordinals up to `f` (up to 8 when no stage is
incomplete), and resolving navigation to any stage beyond `f` lands on
stage `f` itself. -/
theorem gating_invariant (arts : Nat → Option StepArtifact) :
    (∀ f, getFirstIncompleteStep arts = some f →
      (1 ≤ f ∧ f ≤ 8) ∧ stepComplete (arts f) = false ∧
      (∀ k, 1 ≤ k → k < f → stepComplete (arts k) = true) ∧
      (∀ n, stepUnlocked arts n = decide (n ≤ f)) ∧
      (∀ step ∈ STEPS, f < step.number → (resolveStep arts step).number = f)) ∧
    (getFirstIncompleteStep arts = none →
      (∀ step ∈ STEPS, stepComplete (arts step.number) = true) ∧
      (∀ n, stepUnlocked arts n = decide (n ≤ 8))) := by
  cases hb1 : stepComplete (arts 1) with
  | false =>
    have hG : getFirstIncompleteStep arts = some 1 := by
      simp [getFirstIncompleteStep, STEPS, List.find?, hb1]
    refine ⟨?_, ?_⟩
    · intro f hf
      rw [hG] at hf
      obtain rfl : 1 = f := by simpa using hf
      refine ⟨⟨by norm_num, by norm_num⟩, hb1, ?_, ?_, ?_⟩
      · intro k hk1 hk2
        omega
      · intro n
        simp [stepUnlocked, lockedStepThreshold, hG]
      · intro step hstep hlt
        simp only [resolveStep, hG]
        rw [if_pos hlt]
        rfl
    · intro hf
      rw [hG] at hf
      simp at hf
  | true =>
    cases hb2 : stepComplete (arts 2) with
    | false =>
      have hG : getFirstIncompleteStep arts = some 2 := by
        simp [getFirstIncompleteStep, STEPS, List.find?, hb1, hb2]
      refine ⟨?_, ?_⟩
      · intro f hf
        rw [hG] at hf
        obtain rfl : 2 = f := by simpa using hf
        refine ⟨⟨by norm_num, by norm_num⟩, hb2, ?_, ?_, ?_⟩
        · intro k hk1 hk2
          interval_cases k <;> assumption
        · intro n
          simp [stepUnlocked, lockedStepThreshold, hG]
        · intro step hstep hlt
          simp only [resolveStep, hG]
          rw [if_pos hlt]
          rfl
      · intro hf
        rw [hG] at hf
        simp at hf
    | true =>
      cases hb3 : stepComplete (arts 3) with
      | false =>
        have hG : getFirstIncompleteStep arts = some 3 := by
          simp [getFirstIncompleteStep, STEPS, List.find?, hb1, hb2, hb3]
        refine ⟨?_, ?_⟩
        · intro f hf
          rw [hG] at hf
          obtain rfl : 3 = f := by simpa using hf
          refine ⟨⟨by norm_num, by norm_num⟩, hb3, ?_, ?_, ?_⟩
          · intro k hk1 hk2
            interval_cases k <;> assumption
          · intro n
            simp [stepUnlocked, lockedStepThreshold, hG]
          · intro step hstep hlt
            simp only [resolveStep, hG]
            rw [if_pos hlt]
            rfl
        · intro hf
          rw [hG] at hf
          simp at hf
      | true =>
        cases hb4 : stepComplete (arts 4) with
        | false =>
          have hG : getFirstIncompleteStep arts = some 4 := by
            simp [getFirstIncompleteStep, STEPS, List.find?, hb1, hb2, hb3, hb4]
          refine ⟨?_, ?_⟩
          · intro f hf
            rw [hG] at hf
            obtain rfl : 4 = f := by simpa using hf
            refine ⟨⟨by norm_num, by norm_num⟩, hb4, ?_, ?_, ?_⟩
            · intro k hk1 hk2
              interval_cases k <;> assumption
            · intro n
              simp [stepUnlocked, lockedStepThreshold, hG]
            · intro step hstep hlt
              simp only [resolveStep, hG]
              rw [if_pos hlt]
              rfl
          · intro hf
            rw [hG] at hf
            simp at hf
        | true =>
          cases hb5 : stepComplete (arts 5) with
          | false =>
            have hG : getFirstIncompleteStep arts = some 5 := by
              simp [getFirstIncompleteStep, STEPS, List.find?, hb1, hb2, hb3, hb4, hb5]
            refine ⟨?_, ?_⟩
            · intro f hf
              rw [hG] at hf
              obtain rfl : 5 = f := by simpa using hf
              refine ⟨⟨by norm_num, by norm_num⟩, hb5, ?_, ?_, ?_⟩
              · intro k hk1 hk2
                interval_cases k <;> assumption
              · intro n
                simp [stepUnlocked, lockedStepThreshold, hG]
              · intro step hstep hlt
                simp only [resolveStep, hG]
                rw [if_pos hlt]
                rfl
            · intro hf
              rw [hG] at hf
              simp at hf
          | true =>
            cases hb6 : stepComplete (arts 6) with
            | false =>
              have hG : getFirstIncompleteStep arts = some 6 := by
                simp [getFirstIncompleteStep, STEPS, List.find?, hb1, hb2, hb3, hb4, hb5, hb6]
              refine ⟨?_, ?_⟩
              · intro f hf
                rw [hG] at hf
                obtain rfl : 6 = f := by simpa using hf
                refine ⟨⟨by norm_num, by norm_num⟩, hb6, ?_, ?_, ?_⟩
                · intro k hk1 hk2
                  interval_cases k <;> assumption
                · intro n
                  simp [stepUnlocked, lockedStepThreshold, hG]
                · intro step hstep hlt
                  simp only [resolveStep, hG]
                  rw [if_pos hlt]
                  rfl
              · intro hf
                rw [hG] at hf
                simp at hf
            | true =>
              cases hb7 : stepComplete (arts 7) with
              | false =>
                have hG : getFirstIncompleteStep arts = some 7 := by
                  simp [getFirstIncompleteStep, STEPS, List.find?, hb1, hb2, hb3, hb4, hb5, hb6, hb7]
                refine ⟨?_, ?_⟩
                · intro f hf
                  rw [hG] at hf
                  obtain rfl : 7 = f := by simpa using hf
                  refine ⟨⟨by norm_num, by norm_num⟩, hb7, ?_, ?_, ?_⟩
                  · intro k hk1 hk2
                    interval_cases k <;> assumption
                  · intro n
                    simp [stepUnlocked, lockedStepThreshold, hG]
                  · intro step hstep hlt
                    simp only [resolveStep, hG]
                    rw [if_pos hlt]
                    rfl
                · intro hf
                  rw [hG] at hf
                  simp at hf
              | true =>
                cases hb8 : stepComplete (arts 8) with
                | false =>
                  have hG : getFirstIncompleteStep arts = some 8 := by
                    simp [getFirstIncompleteStep, STEPS, List.find?, hb1, hb2, hb3, hb4, hb5, hb6, hb7, hb8]
                  refine ⟨?_, ?_⟩
                  · intro f hf
                    rw [hG] at hf
                    obtain rfl : 8 = f := by simpa using hf
                    refine ⟨⟨by norm_num, by norm_num⟩, hb8, ?_, ?_, ?_⟩
                    · intro k hk1 hk2
                      interval_cases k <;> assumption
                    · intro n
                      simp [stepUnlocked, lockedStepThreshold, hG]
                    · intro step hstep hlt
                      simp only [resolveStep, hG]
                      rw [if_pos hlt]
                      rfl
                  · intro hf
                    rw [hG] at hf
                    simp at hf
                | true =>
                  have hG : getFirstIncompleteStep arts = none := by
                    simp [getFirstIncompleteStep, STEPS, List.find?, hb1, hb2, hb3, hb4, hb5, hb6, hb7, hb8]
                  refine ⟨?_, ?_⟩
                  · intro f hf
                    rw [hG] at hf
                    simp at hf
                  · intro _
                    refine ⟨?_, ?_⟩
                    · intro step hstep
                      fin_cases hstep <;> first | exact hb1 | exact hb2 | exact hb3 | exact hb4 | exact hb5 | exact hb6 | exact hb7 | exact hb8
                    · intro n
                      simp [stepUnlocked, lockedStepThreshold, hG, STEPS]

/-- Witness for C2: with only stage 1 committed, the first incomplete
stage is 2, and navigating directly to stage 3 resolves back to stage 2. -/
theorem gating_invariant_witness :
    getFirstIncompleteStep artsStage1Done = some 2 ∧
    stepComplete (artsStage1Done 1) = true ∧
    stepComplete (artsStage1Done 2) = false ∧
    (resolveStep artsStage1Done stage3).number = 2 ∧
    stepUnlocked artsStage1Done 2 = true ∧
    stepUnlocked artsStage1Done 3 = false := by
  have h := (gating_invariant artsStage1Done).1 2 (by decide)
  refine ⟨by decide, by decide, h.2.1, ?_, ?_, ?_⟩
  · exact h.2.2.2.2 stage3 (by decide) (by decide)
  · rw [h.2.2.2.1 2]
    decide
  · rw [h.2.2.2.1 3]
    decide

theorem stepStatusLine_no_newline (arts : Nat → Option StepArtifact) :
    ∀ step ∈ STEPS, '\n' ∉ (stepStatusLine arts step).data := by
  intro step hstep
  fin_cases hstep <;>
  · unfold stepStatusLine
    split <;> decide

theorem linkLine_no_newline (label s : String) (hlab : '\n' ∉ label.data)
    (hs : '\n' ∉ s.data) : '\n' ∉ (label ++ linkValueOrNA s).data := by
  rw [strData_append]
  intro hmem
  rcases List.mem_append.1 hmem with h | h
  · exact hlab h
  · unfold linkValueOrNA at h
    split at h
    · revert h
      decide
    · exact hs h

/-- C9 (amended): the final-submission clipboard payload splits on
newlines into exactly the header, one status line per stage in ordinal
order reading `Step <n> (<title>): Complete|Pending` (`Complete` exactly
when the stage has a truthy commit stamp), and then the three labeled
link lines with `N/A` standing in for an empty stored link.  The
hypotheses only exclude embedded newlines in the stored links, which
would invalidate any line-based reading of the payload. -/
theorem submission_summary_format (arts : Nat → Option StepArtifact) (links : ProofLinks)
    (h1 : '\n' ∉ links.lovable.data) (h2 : '\n' ∉ links.github.data)
    (h3 : '\n' ∉ links.deploy.data) :
    jsSplitChar '\n' (submissionSummary arts links) =
      "AI Resume Builder - Build Track Final Submission" ::
        (STEPS.map (stepStatusLine arts) ++
          ["Lovable: " ++ linkValueOrNA links.lovable,
           "GitHub: " ++ linkValueOrNA links.github,
           "Deploy: " ++ linkValueOrNA links.deploy]) := by
  rw [submissionSummary]
  have hmap : STEPS.map (fun step =>
      "Step " ++ toString step.number ++ " (" ++ step.title ++ "): " ++
        (if stepComplete (arts step.number) then "Complete" else "Pending")) =
      STEPS.map (stepStatusLine arts) := rfl
  have hl1 : ("Lovable: " ++ (if links.lovable = "" then "N/A" else links.lovable)) =
      "Lovable: " ++ linkValueOrNA links.lovable := rfl
  have hl2 : ("GitHub: " ++ (if links.github = "" then "N/A" else links.github)) =
      "GitHub: " ++ linkValueOrNA links.github := rfl
  have hl3 : ("Deploy: " ++ (if links.deploy = "" then "N/A" else links.deploy)) =
      "Deploy: " ++ linkValueOrNA links.deploy := rfl
  rw [hmap, hl1, hl2, hl3]
  rw [jsSplit_strJoin '\n' "\n" rfl _ (by simp) ?hno]
  · simp
  case hno =>
    intro p hp
    simp only [List.mem_append, List.mem_singleton, List.mem_cons, List.mem_map,
      List.not_mem_nil, or_false] at hp
    rcases hp with (hp | ⟨step, hstep, rfl⟩) | hp | hp | hp
    · subst hp
      decide
    · exact stepStatusLine_no_newline arts step hstep
    · subst hp
      exact linkLine_no_newline _ _ (by decide) h1
    · subst hp
      exact linkLine_no_newline _ _ (by decide) h2
    · subst hp
      exact linkLine_no_newline _ _ (by decide) h3

/-- C9 counterexample: the stage lines of the claim read
`Stage <n> (<title>): ...`, but with no stage committed and empty links
the payload contains no such line for stage 1 — the code writes
`Step 1 (Problem): Pending`, not `Stage 1 (Problem): Pending`. -/
theorem submission_summary_not_stage :
    ¬ (∀ step ∈ STEPS, stageStatusLineClaim artsAllPending step ∈
        jsSplitChar '\n' (submissionSummary artsAllPending linksEmpty)) := by
  intro h
  have h1 := h { number := 1, route := "/rb/01-problem", title := "Problem",
                 subtitle := "Define the candidate pain points and product intent.",
                 prompt := "Document the resume building problems this SaaS solves and list non-goals for MVP." }
    (by decide)
  revert h1
  decide

/-- Witness for C9 at the all-pending history and empty links. -/
theorem submission_summary_format_witness :
    jsSplitChar '\n' (submissionSummary artsAllPending linksEmpty) =
      ["AI Resume Builder - Build Track Final Submission",
       "Step 1 (Problem): Pending", "Step 2 (Market): Pending",
       "Step 3 (Architecture): Pending", "Step 4 (High-Level Design): Pending",
       "Step 5 (Low-Level Design): Pending", "Step 6 (Build): Pending",
       "Step 7 (Test): Pending", "Step 8 (Ship): Pending",
       "Lovable: N/A", "GitHub: N/A", "Deploy: N/A"] := by
  rw [submission_summary_format artsAllPending linksEmpty (by decide) (by decide) (by decide)]
  decide

theorem trim_block (nm ct : String) (hct : ct ≠ "") (hlast : lastNonWs ct) :
    jsTrim (strJoin "\n" ["Name", nm, "", "Contact", ct, ""]) =
      "Name\n" ++ nm ++ "\n\nContact\n" ++ ct := by
  obtain ⟨b, hb, hbw⟩ := hlast
  have c1 : ("Name" : String).data = ['N', 'a', 'm', 'e'] := rfl
  have c2 : ("\n" : String).data = ['\n'] := rfl
  have c3 : ("" : String).data = [] := rfl
  have c4 : ("Contact" : String).data = ['C', 'o', 'n', 't', 'a', 'c', 't'] := rfl
  have c5 : ("Name\n" : String).data = ['N', 'a', 'm', 'e', '\n'] := rfl
  have c6 : ("\n\nContact\n" : String).data =
      ['\n', '\n', 'C', 'o', 'n', 't', 'a', 'c', 't', '\n'] := rfl
  apply strExt
  show trimChars ("Name" ++ "\n" ++ (nm ++ "\n" ++ ("" ++ "\n" ++ ("Contact" ++ "\n" ++
      (ct ++ "\n" ++ ""))))).data = ("Name\n" ++ nm ++ "\n\nContact\n" ++ ct).data
  have step1 : ("Name" ++ "\n" ++ (nm ++ "\n" ++ ("" ++ "\n" ++ ("Contact" ++ "\n" ++
      (ct ++ "\n" ++ ""))))).data =
      ("Name" ++ "\n" ++ (nm ++ "\n" ++ ("" ++ "\n" ++ ("Contact" ++ "\n" ++ ct)))).data ++
        ['\n'] := by
    simp [strData_append, c1, c2, c3, c4, List.append_assoc]
  rw [step1, trimChars_append_ws (by decide)]
  have hhead : ("Name" ++ "\n" ++ (nm ++ "\n" ++ ("" ++ "\n" ++ ("Contact" ++ "\n" ++
      ct)))).data.head? = some 'N' := rfl
  have hsplit : ("Name" ++ "\n" ++ (nm ++ "\n" ++ ("" ++ "\n" ++ ("Contact" ++ "\n" ++
      ct)))).data =
      ("Name" ++ "\n" ++ (nm ++ "\n" ++ ("" ++ "\n" ++ ("Contact" ++ "\n")))).data ++
        ct.data := by
    simp [strData_append, c1, c2, c3, c4, List.append_assoc]
  have hlast2 : ("Name" ++ "\n" ++ (nm ++ "\n" ++ ("" ++ "\n" ++ ("Contact" ++ "\n" ++
      ct)))).data.getLast? = some b := by
    rw [hsplit, List.getLast?_append, hb]
    rfl
  rw [trimChars_eq_self hhead (by decide) hlast2 hbw]
  simp [strData_append, c1, c2, c3, c4, c5, c6, List.append_assoc]

theorem contact_display_ok (d : ResumeDraft) :
    (if contactLine d = "" then "-" else contactLine d) ≠ "" ∧
    lastNonWs (if contactLine d = "" then "-" else contactLine d) := by
  split
  · exact ⟨by decide, '-', rfl, by decide⟩
  · rename_i hne
    cases hp : ([d.email, d.phone, d.location].map jsTrim).filter (fun s => s != "") with
    | nil =>
      exact absurd (by rw [contactLine, hp]; rfl : contactLine d = "") hne
    | cons p ps =>
      have hparts : ∀ q ∈ ([d.email, d.phone, d.location].map jsTrim).filter
          (fun s => s != ""), q ≠ "" ∧ lastNonWs q := by
        intro q hq
        simp only [List.mem_filter, List.mem_map] at hq
        obtain ⟨⟨orig, _, rfl⟩, hqne⟩ := hq
        have hqne2 : jsTrim orig ≠ "" := by simpa using hqne
        exact ⟨hqne2, jsTrim_lastNonWs hqne2⟩
      have := strJoin_lastNonWs " | " _ (by rw [hp]; simp) hparts
      rwa [← contactLine] at this

/-- C8 (amended): for a draft whose list sections all filter to empty,
whose summary is blank, and whose github/linkedin links are also blank,
the plain-text export consists of exactly the Name and Contact headings
with the literal placeholder `-` standing in for a missing name or
contact line; no other section heading appears. -/
theorem text_export_omission (d : ResumeDraft)
    (h1 : nonEmptyEducation d = []) (h2 : nonEmptyExperience d = [])
    (h3 : nonEmptyProjects d = []) (h4 : skillItems d = [])
    (h5 : jsTrim d.summary = "") (h6 : jsTrim d.github = "")
    (h7 : jsTrim d.linkedin = "") :
    toPlainTextResume d =
      "Name\n" ++ (if jsTrim d.name = "" then "-" else jsTrim d.name) ++
        "\n\nContact\n" ++ (if contactLine d = "" then "-" else contactLine d) := by
  obtain ⟨hctne, hctl⟩ := contact_display_ok d
  dsimp only [toPlainTextResume]
  simp only [h1, h2, h3, h4, h5, h6, h7, List.length_nil, gt_iff_lt, Nat.lt_irrefl,
    if_false, List.append_nil, List.nil_append]
  exact trim_block _ _ hctne hctl

/-- C8 counterexample: a draft satisfying every hypothesis of the claim
(all list sections filter to empty, blank summary) but with a GitHub link
stored still renders a `Links` section heading, so the claim that only
the Name and Contact headings appear is false as stated. -/
theorem text_export_links_heading :
    (nonEmptyEducation linksOnlyDraft = [] ∧ nonEmptyExperience linksOnlyDraft = [] ∧
     nonEmptyProjects linksOnlyDraft = [] ∧ skillItems linksOnlyDraft = [] ∧
     jsTrim linksOnlyDraft.summary = "") ∧
    "Links" ∈ jsSplitChar '\n' (toPlainTextResume linksOnlyDraft) := by
  constructor
  · exact ⟨by decide, by decide, by decide, by decide, by decide⟩
  · decide

/-- Witness for C8 at the entirely blank draft: the export is exactly the
two placeholder sections. -/
theorem text_export_omission_witness :
    toPlainTextResume blankDraft = "Name\n-\n\nContact\n-" := by
  have h := text_export_omission blankDraft (by decide) (by decide) (by decide)
    (by decide) (by decide) (by decide) (by decide)
  rw [h]
  decide

theorem noCaseDup_add (l : List String) (v : String) (hd : noCaseDup l) :
    noCaseDup (addUniqueChip l v) := by
  unfold addUniqueChip
  by_cases hn : jsTrim v = ""
  · rwa [if_pos hn]
  · rw [if_neg hn]
    by_cases ha : l.any (fun item => jsToLower item == jsToLower (jsTrim v))
    · rwa [if_pos ha]
    · rw [if_neg ha]
      rw [noCaseDup, List.pairwise_append]
      refine ⟨hd, by simp, ?_⟩
      intro a hal b hbl
      simp only [List.mem_singleton] at hbl
      subst hbl
      have := (List.any_eq_true (l := l)).not.1 ha
      push_neg at this
      have h2 := this a hal
      simpa using h2

theorem noCaseDup_remove (l : List String) (v : String) (hd : noCaseDup l) :
    noCaseDup (removeChip l v) :=
  List.Pairwise.sublist (List.filter_sublist l) hd

theorem chipReachable_noCaseDup (l : List String) (h : ChipReachable l) : noCaseDup l := by
  induction h with
  | nil => exact List.Pairwise.nil
  | add l v _ ih => exact noCaseDup_add l v ih
  | remove l v _ ih => exact noCaseDup_remove l v ih

/-- C10 (Skill-chip uniqueness): `addUniqueChip` ignores a blank value and
a case-insensitive duplicate, appends the trimmed value otherwise, and —
together with `removeChip` — keeps every chip list that is maintained
exclusively through these two operations free of entries that are equal
ignoring case. -/
theorem chip_uniqueness (l : List String) (v : String) (h : ChipReachable l) :
    noCaseDup l ∧
    (jsTrim v = "" → addUniqueChip l v = l) ∧
    ((∃ x ∈ l, jsToLower x = jsToLower (jsTrim v)) → addUniqueChip l v = l) ∧
    (jsTrim v ≠ "" → (∀ x ∈ l, jsToLower x ≠ jsToLower (jsTrim v)) →
      addUniqueChip l v = l ++ [jsTrim v]) ∧
    noCaseDup (addUniqueChip l v) ∧ noCaseDup (removeChip l v) := by
  have hd := chipReachable_noCaseDup l h
  refine ⟨hd, ?_, ?_, ?_, noCaseDup_add l v hd, noCaseDup_remove l v hd⟩
  · intro hn
    rw [addUniqueChip]
    rw [if_pos hn]
  · intro ⟨x, hx, hxe⟩
    rw [addUniqueChip]
    by_cases hn : jsTrim v = ""
    · rw [if_pos hn]
    · rw [if_neg hn, if_pos ?_]
      exact List.any_eq_true.2 ⟨x, hx, by simpa using hxe⟩
  · intro hn hall
    rw [addUniqueChip, if_neg hn, if_neg ?_]
    intro hany
    obtain ⟨x, hx, hxe⟩ := List.any_eq_true.1 hany
    exact hall x hx (by simpa using hxe)

/-- Witness for C10: the singleton list built by one `addUniqueChip` from
the empty list rejects a case-insensitive duplicate of its entry. -/
theorem chip_uniqueness_witness :
    noCaseDup ["React"] ∧ addUniqueChip ["React"] " react " = ["React"] := by
  have hr : ChipReachable ["React"] := by
    have h0 := ChipReachable.add [] "React" ChipReachable.nil
    have : addUniqueChip [] "React" = ["React"] := by decide
    rwa [this] at h0
  have h := chip_uniqueness ["React"] " react " hr
  exact ⟨h.1, h.2.2.1 ⟨"React", by decide, by decide⟩⟩
